import Mathlib

/-!
Verification of the waiting-list trajectory simulator
(GaryWhite72/Simulator).

The core logic lives in `simulate_future` of `LCH_WLSimulator_Main.py`
(the "Branch4" variant): a week-by-week recurrence over a demand
("ClockStarts") and capacity ("ClockStops") series, with 65th-percentile
extrapolation over a progressively growing historical window, user-defined
capacity initiatives and up to two waiting-list resets.  The simpler
variants (`LCH_WL_Simulator_Branch6.py`, `comm_paeds_streamlit_*.py`) run
the recurrence `max(prev + demand - capacity, 0)` directly over a given
series; they are embedded as `simulateBranch`.

Dates are modelled as week indices (`ℤ`); numeric cell values as `ℚ`,
with `Option ℚ` for cells that may be NaN (pandas `dropna` removes them).
Failures that abort a Python run with an exception (an `IndexError` from
`iloc[-1]` on an empty frame, or a `ValueError` from `int(nan)` when a
quantile is taken over an empty column) are modelled as `Except.error`.
-/

/-- One row of the source spreadsheet, restricted to the columns the
simulator reads: `WeekCommencing` (as a week index), `Over52Weeks`,
`ClockStarts_52+_weeks` and `ClockStops_52+_weeks`.  `none` models a NaN
cell. -/
structure Row where
  week : ℤ
  over52 : ℚ
  clockStarts : Option ℚ
  clockStops : Option ℚ
  deriving DecidableEq

/-- A capacity initiative as built by the sidebar of
`LCH_WLSimulator_Main.py`: a dict with keys `name`, `start`, `change` and
an optional `end` (the presentation-only `color` key is omitted). -/
structure Initiative where
  name : String
  start : ℤ
  end_ : Option ℤ
  change : ℚ
  deriving DecidableEq

/-- The failure modes of a run.  `insufficientHistory` stands for the
exceptions Python raises when the historical window is empty:
`IndexError` from `.iloc[-1]` on an empty frame, and `ValueError` from
`int(...)` of the NaN that `quantile` returns on an empty column. -/
inductive SimError where
  | insufficientHistory
  deriving DecidableEq

/-- The activity test of `LCH_WLSimulator_Main.py`, lines 134 and 279:
`item["start"] <= week and ("end" not in item or week <= item["end"])`. -/
def isActive (week : ℤ) (item : Initiative) : Bool :=
  decide (item.start ≤ week) &&
    (match item.end_ with
     | none => true
     | some e => decide (week ≤ e))

/-- Lines 132-135 of `LCH_WLSimulator_Main.py`: starting from the base
capacity, add `item["change"]` for every active initiative. -/
def adjustedClockStop (week : ℤ) (base : ℚ) (inits : List Initiative) : ℚ :=
  inits.foldl (fun acc item => if isActive week item then acc + item.change else acc) base

/-- Lines 141-142 (and 143-144) of `LCH_WLSimulator_Main.py`: one reset
slot, `(date, value)`; if the simulated week equals the date the running
value is replaced by the reset value. -/
def applyReset (r : Option (ℤ × ℚ)) (week : ℤ) (wl : ℚ) : ℚ :=
  match r with
  | some (d, v) => if week = d then v else wl
  | none => wl

/-- Both reset slots applied in program order: reset 1 first, then
reset 2 (so on a shared date reset 2 wins). -/
def applyResets (r1 r2 : Option (ℤ × ℚ)) (week : ℤ) (wl : ℚ) : ℚ :=
  applyReset r2 week (applyReset r1 week wl)

/-- Python `int(...)` on a (rational-valued) number: truncation toward
zero. -/
def pyInt (q : ℚ) : ℤ :=
  if 0 ≤ q then Int.floor q else -Int.floor (-q)

/-- The linear-interpolation quantile used by pandas
`Series.quantile(p)` (default `interpolation="linear"`): sort the values,
take the virtual position `h = p * (n - 1)`, and interpolate between the
two neighbouring order statistics.  An empty list yields `none` (pandas
returns NaN there). -/
def quantileLinear (p : ℚ) (vals : List ℚ) : Option ℚ :=
  match vals with
  | [] => none
  | _ :: _ =>
    let xs := vals.insertionSort (· ≤ ·)
    let n := xs.length
    let h : ℚ := p * ((n : ℚ) - 1)
    let i : ℕ := (Int.floor h).toNat
    let x0 := xs.getD i 0
    let x1 := xs.getD (min (i + 1) (n - 1)) 0
    some (x0 + (h - (i : ℚ)) * (x1 - x0))

/-- Lines 128-130 of `LCH_WLSimulator_Main.py`:
`int(df[df["WeekCommencing"] < next_week][col].dropna().quantile(0.65))` —
the 65th percentile of the named column over all rows strictly before the
target week, NaN cells dropped, truncated to an integer.  `none` models
the `ValueError` that `int(nan)` raises when the window is empty. -/
def extrapolate65 (df : List Row) (target : ℤ) (col : Row → Option ℚ) : Option ℤ :=
  (quantileLinear (13/20)
    ((df.filter (fun r => decide (r.week < target))).filterMap col)).map pyInt

/-- Python `max(0, x)` where `x` may be NaN (modelled as `none`):
`max` keeps its first argument `0` when the comparison with NaN is
false, so the result is `0`. -/
def floorZero : Option ℚ → ℚ
  | some v => max 0 v
  | none => 0

/-- The inputs of `simulate_future` that stay fixed across loop
iterations: the frame, the last actual row, `start_date`, the
initiatives, and the two reset slots read from the enclosing scope. -/
structure SimParams where
  df : List Row
  lastRow : Row
  startDate : ℤ
  initiatives : List Initiative
  reset1 : Option (ℤ × ℚ)
  reset2 : Option (ℤ × ℚ)
  deriving DecidableEq

/-- One iteration of the loop in `simulate_future`
(`LCH_WLSimulator_Main.py`, lines 125-158), producing the value emitted
for step `i`:
quantile-extrapolate demand and capacity over the window strictly before
`next_week`; add active initiative deltas to the capacity; on step 0
replace the adjusted capacity wholesale by the last actual row's raw
`ClockStops_52+_weeks` cell; apply the resets to the running value; floor
`wl - capacity` at zero; and add the extrapolated demand unless this is
the final week (`i < weeks_ahead - 1`). -/
def simStep (P : SimParams) (weeksAhead i : ℕ) (wl : ℚ) : Except SimError ℚ :=
  match extrapolate65 P.df (P.startDate + (i : ℤ) + 1) (fun r => r.clockStarts),
        extrapolate65 P.df (P.startDate + (i : ℤ) + 1) (fun r => r.clockStops) with
  | some clockStart65, some clockStop65 =>
    let adjusted : Option ℚ :=
      if i = 0 then P.lastRow.clockStops
      else some (adjustedClockStop (P.startDate + (i : ℤ) + 1) ((clockStop65 : ℚ)) P.initiatives)
    let wl1 := applyResets P.reset1 P.reset2 (P.startDate + (i : ℤ) + 1) wl
    let wl2 := floorZero (adjusted.map (fun c => wl1 - c))
    Except.ok (if i < weeksAhead - 1 then wl2 + (clockStart65 : ℚ) else wl2)
  | _, _ => Except.error SimError.insufficientHistory

/-- The loop `for i in range(weeks_ahead)` of `simulate_future`, with
`k` the number of iterations left: each iteration computes the new
running value via `simStep` and appends `(next_week, value)` to the
output.  A failing step aborts the run with no trajectory, as the Python
exception does. -/
def simLoop (P : SimParams) (weeksAhead : ℕ) : ℕ → ℕ → ℚ → Except SimError (List (ℤ × ℚ))
  | 0, _, _ => Except.ok []
  | k + 1, i, wl =>
    match simStep P weeksAhead i wl with
    | Except.error e => Except.error e
    | Except.ok w =>
      match simLoop P weeksAhead k (i + 1) w with
      | Except.error e => Except.error e
      | Except.ok rest => Except.ok ((P.startDate + (i : ℤ) + 1, w) :: rest)

/-- `simulate_future(df, weeks_ahead, initiatives)` of
`LCH_WLSimulator_Main.py` (lines 119-160), with the globals it reads
(`today`, `reset_date_1`/`reset_value_1`, `reset_date_2`/`reset_value_2`)
passed explicitly.  The last actual row is the last row strictly before
`today`; an empty historical window aborts the run (`IndexError` in
Python).  The initial running value is that row's `Over52Weeks`, and
`start_date` its week. -/
def simulate_future (df : List Row) (today : ℤ) (weeks_ahead : ℕ)
    (initiatives : List Initiative) (reset1 reset2 : Option (ℤ × ℚ)) :
    Except SimError (List (ℤ × ℚ)) :=
  match (df.filter (fun r => decide (r.week < today))).getLast? with
  | none => Except.error SimError.insufficientHistory
  | some lastRow =>
    simLoop ⟨df, lastRow, lastRow.week, initiatives, reset1, reset2⟩
      weeks_ahead weeks_ahead 0 lastRow.over52

/-- The simulation loop of the simple variants
(`LCH_WL_Simulator_Branch6.py` lines 108-115,
`comm_paeds_streamlit_branch_branch.py` lines 97-102,
`comm_paeds_streamlit_final.py` lines 44-52): per period,
`net_change = demand - capacity` and
`new = max(prev + net_change, 0)`; the emitted list drops the seed
initial value. -/
def simulateBranch : ℚ → List (ℚ × ℚ) → List ℚ
  | _, [] => []
  | prev, (demand, capacity) :: rest =>
    max (prev + (demand - capacity)) 0 :: simulateBranch (max (prev + (demand - capacity)) 0) rest

/-! ## Basic facts about the embedded operations -/

theorem floorZero_nonneg (x : Option ℚ) : 0 ≤ floorZero x := by
  cases x with
  | none => simp [floorZero]
  | some v => exact le_max_left 0 v

theorem pyInt_floor_of_nonneg (q : ℚ) (h : 0 ≤ q) : pyInt q = Int.floor q := by
  simp [pyInt, h]

theorem pyInt_nonneg (q : ℚ) (h : 0 ≤ q) : 0 ≤ pyInt q := by
  rw [pyInt_floor_of_nonneg q h]
  exact Int.floor_nonneg.mpr h

/-- A linear-interpolation quantile of nonnegative values, for a
quantile level in `[0, 1]`, is nonnegative. -/
theorem quantileLinear_nonneg (p : ℚ) (vals : List ℚ) (r : ℚ)
    (hp0 : 0 ≤ p) (hp1 : p ≤ 1) (hv : ∀ x ∈ vals, 0 ≤ x)
    (h : quantileLinear p vals = some r) : 0 ≤ r := by
  match vals, hv, h with
  | v :: vs, hv, h =>
    simp only [quantileLinear] at h
    set xs := (v :: vs).insertionSort (· ≤ ·) with hxs
    have hlen : xs.length = vs.length + 1 := by
      rw [hxs, List.length_insertionSort, List.length_cons]
    have hn1 : 1 ≤ xs.length := by omega
    have hxmem : ∀ x ∈ xs, 0 ≤ x := by
      intro x hx
      exact hv x ((List.perm_insertionSort (· ≤ ·) (v :: vs)).mem_iff.mp hx)
    have hsorted : xs.Sorted (· ≤ ·) := List.sorted_insertionSort (· ≤ ·) (v :: vs)
    set hq : ℚ := p * ((xs.length : ℚ) - 1) with hhq
    have hq0 : 0 ≤ hq := by
      apply mul_nonneg hp0
      have : (1 : ℚ) ≤ (xs.length : ℚ) := by exact_mod_cast hn1
      linarith
    have hqle : hq ≤ (xs.length : ℚ) - 1 := by
      apply mul_le_of_le_one_left _ hp1
      have : (1 : ℚ) ≤ (xs.length : ℚ) := by exact_mod_cast hn1
      linarith
    have hfl0 : 0 ≤ Int.floor hq := Int.floor_nonneg.mpr hq0
    set i : ℕ := (Int.floor hq).toNat with hi
    have hicast : (i : ℤ) = Int.floor hq := Int.toNat_of_nonneg hfl0
    have hicastQ : (i : ℚ) ≤ hq := by
      have h1 : ((Int.floor hq : ℤ) : ℚ) ≤ hq := Int.floor_le hq
      have h2 : ((i : ℤ) : ℚ) = ((Int.floor hq : ℤ) : ℚ) := by exact_mod_cast hicast
      push_cast at h2 ⊢
      linarith
    have hfl_le : Int.floor hq ≤ (xs.length : ℤ) - 1 := by
      have h1 : Int.floor hq ≤ Int.floor ((xs.length : ℚ) - 1) := Int.floor_le_floor hqle
      have h2 : Int.floor ((xs.length : ℚ) - 1) = (xs.length : ℤ) - 1 := by
        rw [show ((xs.length : ℚ) - 1) = (((xs.length : ℤ) - 1 : ℤ) : ℚ) by push_cast; ring]
        exact Int.floor_intCast _
      omega
    have hi_le : i ≤ xs.length - 1 := by omega
    have hi_lt : i < xs.length := by omega
    have hj_lt : min (i + 1) (xs.length - 1) < xs.length := by omega
    have hij : i ≤ min (i + 1) (xs.length - 1) := by omega
    have hx0 : xs.getD i 0 = xs.get ⟨i, hi_lt⟩ := List.getD_eq_getElem xs 0 hi_lt
    have hx1 : xs.getD (min (i + 1) (xs.length - 1)) 0
        = xs.get ⟨min (i + 1) (xs.length - 1), hj_lt⟩ := List.getD_eq_getElem xs 0 hj_lt
    have hx0nn : 0 ≤ xs.get ⟨i, hi_lt⟩ := hxmem _ (xs.get_mem i hi_lt)
    have hx01 : xs.get ⟨i, hi_lt⟩ ≤ xs.get ⟨min (i + 1) (xs.length - 1), hj_lt⟩ :=
      hsorted.rel_get_of_le hij
    rw [Option.some.injEq] at h
    rw [← h, hx0, hx1]
    have hgam : 0 ≤ hq - (i : ℚ) := by linarith
    nlinarith [mul_nonneg hgam (sub_nonneg.mpr hx01)]

/-- Values appearing in the (NaN-dropped) column of the windowed frame
all come from the original frame. -/
theorem extrapolate65_nonneg (df : List Row) (target : ℤ) (col : Row → Option ℚ) (z : ℤ)
    (hcol : ∀ r ∈ df, ∀ v, col r = some v → 0 ≤ v)
    (h : extrapolate65 df target col = some z) : 0 ≤ z := by
  rw [extrapolate65] at h
  cases hq : quantileLinear (13/20)
      ((df.filter (fun r => decide (r.week < target))).filterMap col) with
  | none => rw [hq] at h; simp at h
  | some r =>
    rw [hq] at h
    simp only [Option.map_some', Option.some.injEq] at h
    have hr : 0 ≤ r := by
      apply quantileLinear_nonneg (13/20) _ r (by norm_num) (by norm_num) _ hq
      intro x hx
      obtain ⟨a, ha, hax⟩ := List.mem_filterMap.mp hx
      exact hcol a (List.mem_of_mem_filter ha) x hax
    exact h ▸ pyInt_nonneg r hr

/-- Unfolding one simulation step when both quantile extrapolations
succeed. -/
theorem simStep_eq (P : SimParams) (w i : ℕ) (wl : ℚ) (cs cc : ℤ)
    (hs : extrapolate65 P.df (P.startDate + (i : ℤ) + 1) (fun r => r.clockStarts) = some cs)
    (hc : extrapolate65 P.df (P.startDate + (i : ℤ) + 1) (fun r => r.clockStops) = some cc) :
    simStep P w i wl = Except.ok
      (if i < w - 1
       then floorZero ((if i = 0 then P.lastRow.clockStops
              else some (adjustedClockStop (P.startDate + (i : ℤ) + 1) ((cc : ℚ)) P.initiatives)).map
              (fun c => applyResets P.reset1 P.reset2 (P.startDate + (i : ℤ) + 1) wl - c)) + (cs : ℚ)
       else floorZero ((if i = 0 then P.lastRow.clockStops
              else some (adjustedClockStop (P.startDate + (i : ℤ) + 1) ((cc : ℚ)) P.initiatives)).map
              (fun c => applyResets P.reset1 P.reset2 (P.startDate + (i : ℤ) + 1) wl - c))) := by
  rw [simStep, hs, hc]

/-- A successful simulation step needs both quantile extrapolations to
have succeeded. -/
theorem simStep_ok_inv (P : SimParams) (w i : ℕ) (wl v : ℚ)
    (h : simStep P w i wl = Except.ok v) :
    ∃ cs cc, extrapolate65 P.df (P.startDate + (i : ℤ) + 1) (fun r => r.clockStarts) = some cs
      ∧ extrapolate65 P.df (P.startDate + (i : ℤ) + 1) (fun r => r.clockStops) = some cc := by
  rw [simStep] at h
  cases h1 : extrapolate65 P.df (P.startDate + (i : ℤ) + 1) (fun r => r.clockStarts) with
  | none => rw [h1] at h; cases h
  | some cs =>
    cases h2 : extrapolate65 P.df (P.startDate + (i : ℤ) + 1) (fun r => r.clockStops) with
    | none => rw [h1, h2] at h; cases h
    | some cc => exact ⟨cs, cc, rfl, rfl⟩

/-- If all present values of the demand column are nonnegative, every
value a simulation step produces is nonnegative. -/
theorem simStep_ok_nonneg (P : SimParams) (w i : ℕ) (wl v : ℚ)
    (hcol : ∀ r ∈ P.df, ∀ x, r.clockStarts = some x → 0 ≤ x)
    (h : simStep P w i wl = Except.ok v) : 0 ≤ v := by
  obtain ⟨cs, cc, hs, hc⟩ := simStep_ok_inv P w i wl v h
  rw [simStep_eq P w i wl cs cc hs hc] at h
  have hv := (Except.ok.inj h).symm
  subst hv
  have hcs : (0 : ℚ) ≤ (cs : ℚ) := by
    exact_mod_cast extrapolate65_nonneg P.df _ _ cs hcol hs
  split
  · exact add_nonneg (floorZero_nonneg _) hcs
  · exact floorZero_nonneg _

/-- Every pair the loop emits carries a nonnegative value, provided the
demand column is nonnegative. -/
theorem simLoop_ok_nonneg (P : SimParams) (w : ℕ)
    (hcol : ∀ r ∈ P.df, ∀ x, r.clockStarts = some x → 0 ≤ x) :
    ∀ (k i : ℕ) (wl : ℚ) (l : List (ℤ × ℚ)),
      simLoop P w k i wl = Except.ok l → ∀ pr ∈ l, 0 ≤ pr.2 := by
  intro k
  induction k with
  | zero =>
    intro i wl l h pr hpr
    rw [simLoop] at h
    rw [← Except.ok.inj h] at hpr
    cases hpr
  | succ k ih =>
    intro i wl l h pr hpr
    rw [simLoop] at h
    split at h
    · cases h
    · rename_i wv hstep
      split at h
      · cases h
      · rename_i rest hrest
        rw [← Except.ok.inj h] at hpr
        rcases List.mem_cons.mp hpr with heq | hmem
        · rw [heq]
          exact simStep_ok_nonneg P w i wl wv hcol hstep
        · exact ih (i + 1) wv rest hrest pr hmem

/-- The last pair the loop emits is produced by the final step: running
it `k + 1` times from index `i` puts the week `startDate + i + k + 1` at
the end of the list, carrying the value of step `i + k` on the running
value it received. -/
theorem simLoop_ok_getLast (P : SimParams) (w : ℕ) :
    ∀ (k i : ℕ) (wl : ℚ) (l : List (ℤ × ℚ)),
      simLoop P w (k + 1) i wl = Except.ok l →
      ∃ prev v, simStep P w (i + k) prev = Except.ok v ∧
        l.getLast? = some (P.startDate + (i : ℤ) + (k : ℤ) + 1, v) := by
  intro k
  induction k with
  | zero =>
    intro i wl l h
    rw [simLoop] at h
    split at h
    · cases h
    · rename_i wv hstep
      simp only [simLoop] at h
      refine ⟨wl, wv, by simpa using hstep, ?_⟩
      rw [← Except.ok.inj h]
      simp
  | succ k ih =>
    intro i wl l h
    rw [simLoop] at h
    split at h
    · cases h
    · rename_i wv hstep
      split at h
      · cases h
      · rename_i rest hrest
        obtain ⟨prev, v, hsv, hlast⟩ := ih (i + 1) wv rest hrest
        have hidx : i + 1 + k = i + (k + 1) := by omega
        rw [hidx] at hsv
        refine ⟨prev, v, hsv, ?_⟩
        rw [← Except.ok.inj h]
        cases rest with
        | nil => simp at hlast
        | cons b t =>
          rw [List.getLast?_cons_cons, hlast]
          simp only [Option.some.injEq, Prod.mk.injEq]
          refine ⟨by push_cast; ring, trivial⟩

/-- `adjustedClockStop` over a cons: fold one item into the base. -/
theorem adjustedClockStop_cons (week : ℤ) (base : ℚ) (a : Initiative) (t : List Initiative) :
    adjustedClockStop week base (a :: t)
      = adjustedClockStop week (if isActive week a then base + a.change else base) t := by
  rw [adjustedClockStop, adjustedClockStop, List.foldl_cons]

/-! ## Concrete frames used to exercise the simulator -/

/-- A flat history: weeks 0, 1, 2 with demand (`ClockStarts`) 10 and
capacity (`ClockStops`) 15 everywhere; the last actual waiting list is
100.  With `today = 3` every quantile window is `[10, 10, 10]` resp.
`[15, 15, 15]`, so the extrapolated demand is 10 and the capacity 15 at
every step, and the last actual capacity is also 15. -/
def flatRows : List Row :=
  [⟨0, 80, some 10, some 15⟩, ⟨1, 90, some 10, some 15⟩, ⟨2, 100, some 10, some 15⟩]

/-- Like `flatRows` but with capacity 5 everywhere (for the reset
scenario of the spec: demand 10, capacity 5). -/
def resetRows : List Row :=
  [⟨0, 80, some 10, some 5⟩, ⟨1, 90, some 10, some 5⟩, ⟨2, 100, some 10, some 5⟩]

/-- History for the quantile scenario: capacity values
`[10, 10, 10, 20, 20]` strictly before week 6, one NaN row (week 5) that
`dropna` must exclude, and a row at week 6 that the strict window must
exclude. -/
def quantRows : List Row :=
  [⟨0, 0, none, some 10⟩, ⟨1, 0, none, some 10⟩, ⟨2, 0, none, some 10⟩,
   ⟨3, 0, none, some 20⟩, ⟨4, 0, none, some 20⟩, ⟨5, 0, none, none⟩,
   ⟨6, 0, none, some 999⟩]

/-- The loop parameters of a `simulate_future` run over `flatRows` with
`today = 3`: last actual row is week 2, no initiatives, no resets. -/
def Pflat : SimParams := ⟨flatRows, ⟨2, 100, some 10, some 15⟩, 2, [], none, none⟩

/-- The loop parameters of a run over `resetRows` with a reset of value
50 at week 4 (which is simulation step `i = 1` from start date 2). -/
def Preset : SimParams := ⟨resetRows, ⟨2, 100, some 10, some 5⟩, 2, [], some (4, 50), none⟩

/-! ## The claims -/

/-- C4: for every period and every set of adjustment events, the capacity
delta applied at the period is the sum of `delta_capacity` over exactly
the events with `start <= period` and (`end` absent or `period <= end`);
in particular a single-period window `start = P, end = P` contributes its
delta at `P` and nowhere else. -/
theorem claim_C4_adjustment_window :
    (∀ (week : ℤ) (base : ℚ) (inits : List Initiative),
      adjustedClockStop week base inits
        = base + ((inits.filter (fun it => isActive week it)).map Initiative.change).sum)
    ∧ (∀ (nm : String) (P : ℤ) (δ : ℚ) (week : ℤ) (base : ℚ),
      adjustedClockStop week base [⟨nm, P, some P, δ⟩]
        = if week = P then base + δ else base) := by
  constructor
  · intro week base inits
    induction inits generalizing base with
    | nil => simp [adjustedClockStop]
    | cons a t ih =>
      rw [adjustedClockStop_cons]
      by_cases ha : isActive week a
      · rw [if_pos ha, ih, List.filter_cons_of_pos ha, List.map_cons, List.sum_cons]
        ring
      · rw [if_neg ha, ih, List.filter_cons_of_neg (by simpa using ha)]
  · intro nm P δ week base
    simp only [adjustedClockStop, List.foldl_cons, List.foldl_nil, isActive]
    by_cases h1 : P ≤ week
    · by_cases h2 : week ≤ P
      · have hw : week = P := le_antisymm h2 h1
        simp [h1, h2, hw]
      · have hw : ¬ week = P := by omega
        simp [h1, h2, hw]
    · have hw : ¬ week = P := by omega
      simp [h1, hw]

/-- C7 (amended): the code performs no validation of the reset slots.
Two resets configured with the same date are both passed to the
simulation, and when that date matches the simulated week the second
reset's value silently overwrites the first. -/
theorem claim_C7_amended (d : ℤ) (v1 v2 wl : ℚ) :
    applyResets (some (d, v1)) (some (d, v2)) d wl = v2 := by
  simp [applyResets, applyReset]

/-- C7 counterexample: a run with two resets on one date (week 4, values
30 and 50) is not rejected: it succeeds, and its trajectory coincides
with the trajectory of the run that has only the second reset — the
first reset is silently discarded (a reset-1-only run differs). -/
theorem claim_C7_counterexample :
    simulate_future flatRows 3 3 [] (some (4, 30)) (some (4, 50))
      = Except.ok [(3, 95), (4, 45), (5, 30)]
    ∧ simulate_future flatRows 3 3 [] none (some (4, 50))
      = Except.ok [(3, 95), (4, 45), (5, 30)]
    ∧ simulate_future flatRows 3 3 [] (some (4, 30)) none
      = Except.ok [(3, 95), (4, 25), (5, 10)] := by
  refine ⟨?_, ?_, ?_⟩ <;>
    norm_num [simulate_future, simLoop, simStep, extrapolate65, quantileLinear,
      List.insertionSort, List.orderedInsert, applyResets, applyReset, floorZero,
      adjustedClockStop, pyInt, flatRows, max_def, List.filterMap_cons,
      List.getElem_cons_succ]

/-- C10: the extrapolator applies Python `int` to the linear-interpolation
quantile, truncating it toward zero: for a nonnegative estimate this is
the floor, for a negative one the ceiling, and in both cases the result
differs from the estimate by less than 1 (the fractional part is
discarded), so the demand and capacity fed to the recurrence are always
integers. -/
theorem claim_C10_truncation (q : ℚ) :
    (∀ (df : List Row) (target : ℤ) (col : Row → Option ℚ),
      extrapolate65 df target col
        = (quantileLinear (13/20)
            ((df.filter (fun r => decide (r.week < target))).filterMap col)).map pyInt)
    ∧ (0 ≤ q → pyInt q = Int.floor q ∧ ((pyInt q : ℚ) ≤ q ∧ q < (pyInt q : ℚ) + 1))
    ∧ (q < 0 → pyInt q = Int.ceil q ∧ (q ≤ (pyInt q : ℚ) ∧ (pyInt q : ℚ) < q + 1)) := by
  refine ⟨fun df target col => rfl, fun hq => ?_, fun hq => ?_⟩
  · rw [pyInt_floor_of_nonneg q hq]
    exact ⟨rfl, Int.floor_le q, Int.lt_floor_add_one q⟩
  · have hni : ¬ 0 ≤ q := not_le.mpr hq
    have h2 : pyInt q = Int.ceil q := by
      rw [pyInt, if_neg hni, Int.floor_neg]
      ring
    refine ⟨h2, ?_, ?_⟩
    · rw [h2]; exact Int.le_ceil q
    · rw [h2]; exact Int.ceil_lt_add_one q

/-- Witness for C10 at the concrete estimate 33/10: the truncation yields
3, sitting within 1 below the estimate. -/
theorem claim_C10_witness :
    pyInt (33/10) = Int.floor ((33 : ℚ)/10)
    ∧ ((pyInt (33/10) : ℚ) ≤ 33/10 ∧ (33/10 : ℚ) < (pyInt (33/10) : ℚ) + 1) :=
  (claim_C10_truncation (33/10)).2.1 (by norm_num)

/-- C5: the quantile extrapolator computes the 65th percentile by
standard linear interpolation over exactly the rows strictly before the
target period with NaN rows excluded; on the history
`[10, 10, 10, 20, 20]` it returns exactly 16. -/
theorem claim_C5_quantile :
    extrapolate65 quantRows 6 (fun r => r.clockStops) = some 16
    ∧ quantileLinear (13/20) [10, 10, 10, 20, 20] = some 16
    ∧ (quantRows.filter (fun r => decide (r.week < 6))).filterMap (fun r => r.clockStops)
        = [10, 10, 10, 20, 20] := by
  refine ⟨?_, ?_, ?_⟩ <;>
    norm_num [extrapolate65, quantileLinear, List.insertionSort, List.orderedInsert,
      pyInt, quantRows, List.filterMap_cons, show Int.toNat 2 = 2 from rfl,
      List.getElem_cons_succ]

/-- C1 counterexample: on the flat scenario (initial 100, three weeks,
demand 10 and capacity 15 every week, no adjustments, no resets) the Main
variant's `simulate_future` emits the values [95, 90, 75], not
[95, 90, 85]. -/
theorem claim_C1_counterexample :
    simulate_future flatRows 3 3 [] none none = Except.ok [(3, 95), (4, 90), (5, 75)]
    ∧ [((3 : ℤ), (95 : ℚ)), (4, 90), (5, 75)].map Prod.snd ≠ ([95, 90, 85] : List ℚ) := by
  constructor
  · norm_num [simulate_future, simLoop, simStep, extrapolate65, quantileLinear,
      List.insertionSort, List.orderedInsert, applyResets, applyReset, floorZero,
      adjustedClockStop, pyInt, flatRows, max_def, List.filterMap_cons,
      List.getElem_cons_succ]
  · norm_num

/-- C1 (amended): the branch variants' recurrence
`max(prev + demand - capacity, 0)` emits the trajectory [95, 90, 85] on
this scenario; the Main variant's `simulate_future` emits [95, 90, 75]
on the same scenario, because its final simulated week skips the demand
term. -/
theorem claim_C1_trajectories :
    simulateBranch 100 [(10, 15), (10, 15), (10, 15)] = [95, 90, 85]
    ∧ simulate_future flatRows 3 3 [] none none = Except.ok [(3, 95), (4, 90), (5, 75)] := by
  constructor
  · norm_num [simulateBranch, max_def]
  · norm_num [simulate_future, simLoop, simStep, extrapolate65, quantileLinear,
      List.insertionSort, List.orderedInsert, applyResets, applyReset, floorZero,
      adjustedClockStop, pyInt, flatRows, max_def, List.filterMap_cons,
      List.getElem_cons_succ]

/-- C2: for every run with a nonnegative demand column (any initial
value, any capacity series, any adjustment and reset events), every
value in the emitted trajectory is nonnegative: the simulated waiting
list is never negative. -/
theorem claim_C2_floor_invariant (df : List Row) (today : ℤ) (w : ℕ)
    (inits : List Initiative) (r1 r2 : Option (ℤ × ℚ)) (traj : List (ℤ × ℚ))
    (hdemand : ∀ r ∈ df, ∀ x, r.clockStarts = some x → 0 ≤ x)
    (hok : simulate_future df today w inits r1 r2 = Except.ok traj) :
    ∀ pr ∈ traj, 0 ≤ pr.2 := by
  rw [simulate_future] at hok
  cases hlast : (df.filter (fun r => decide (r.week < today))).getLast? with
  | none => rw [hlast] at hok; cases hok
  | some lastRow =>
    rw [hlast] at hok
    exact simLoop_ok_nonneg ⟨df, lastRow, lastRow.week, inits, r1, r2⟩ w hdemand
      w 0 lastRow.over52 traj hok

/-- Witness for C2: the first value of the flat-scenario trajectory is
nonnegative. -/
theorem claim_C2_witness : (0 : ℚ) ≤ 95 :=
  claim_C2_floor_invariant flatRows 3 3 [] none none [(3, 95), (4, 90), (5, 75)]
    (by
      intro r hr x hx
      fin_cases hr <;> simp_all <;> linarith)
    (by
      norm_num [simulate_future, simLoop, simStep, extrapolate65, quantileLinear,
        List.insertionSort, List.orderedInsert, applyResets, applyReset, floorZero,
        adjustedClockStop, pyInt, flatRows, max_def, List.filterMap_cons,
        List.getElem_cons_succ])
    ((3 : ℤ), (95 : ℚ)) (List.mem_cons_self _ _)

/-- C8: if the historical window is empty — no rows strictly before
`today` for the initial-value derivation, or a demand column with no
values for the quantile — the run fails with the insufficient-history
error and emits no trajectory; no default is substituted. -/
theorem claim_C8_insufficient_history :
    (∀ (df : List Row) (today : ℤ) (w : ℕ) (inits : List Initiative)
       (r1 r2 : Option (ℤ × ℚ)),
      df.filter (fun r => decide (r.week < today)) = [] →
      simulate_future df today w inits r1 r2 = Except.error SimError.insufficientHistory)
    ∧ (∀ (df : List Row) (today : ℤ) (w : ℕ) (inits : List Initiative)
         (r1 r2 : Option (ℤ × ℚ)),
      1 ≤ w → (∀ r ∈ df, r.clockStarts = none) →
      simulate_future df today w inits r1 r2 = Except.error SimError.insufficientHistory) := by
  constructor
  · intro df today w inits r1 r2 hempty
    rw [simulate_future, hempty]
    rfl
  · intro df today w inits r1 r2 hw hnone
    rw [simulate_future]
    cases hlast : (df.filter (fun r => decide (r.week < today))).getLast? with
    | none => rfl
    | some lastRow =>
      obtain ⟨k, rfl⟩ : ∃ k, w = k + 1 := ⟨w - 1, by omega⟩
      have hfm : ∀ t : ℤ,
          (df.filter (fun r => decide (r.week < t))).filterMap (fun r => r.clockStarts)
            = [] := by
        intro t
        rw [List.filterMap_eq_nil_iff]
        intro a ha
        exact hnone a (List.mem_of_mem_filter ha)
      have hstep : simStep ⟨df, lastRow, lastRow.week, inits, r1, r2⟩ (k + 1) 0
          lastRow.over52 = Except.error SimError.insufficientHistory := by
        rw [simStep, extrapolate65, hfm]
        rfl
      have hloop : simLoop ⟨df, lastRow, lastRow.week, inits, r1, r2⟩ (k + 1) (k + 1) 0
          lastRow.over52 = Except.error SimError.insufficientHistory := by
        rw [simLoop, hstep]
      exact hloop

/-- Witness for C8: a frame whose only row is not before `today`
produces the insufficient-history error. -/
theorem claim_C8_witness :
    simulate_future [⟨5, 100, some 1, some 1⟩] 0 52 [] none none
      = Except.error SimError.insufficientHistory :=
  claim_C8_insufficient_history.1 [⟨5, 100, some 1, some 1⟩] 0 52 [] none none (by rfl)

/-- C6: on the first forecast step (`i = 0`) the simulator uses the last
actual row's raw capacity cell in place of the extrapolated
65th-percentile capacity — the emitted value does not mention the
extrapolated capacity at all — and only for that step: on every later
step the subtracted capacity is the extrapolated capacity plus the
active adjustment deltas. -/
theorem claim_C6_seam_smoothing :
    (∀ (P : SimParams) (w : ℕ) (wl : ℚ) (cs cc : ℤ),
      extrapolate65 P.df (P.startDate + ((0 : ℕ) : ℤ) + 1) (fun r => r.clockStarts) = some cs →
      extrapolate65 P.df (P.startDate + ((0 : ℕ) : ℤ) + 1) (fun r => r.clockStops) = some cc →
      simStep P w 0 wl = Except.ok
        (if 0 < w - 1
         then floorZero (P.lastRow.clockStops.map
                (fun c => applyResets P.reset1 P.reset2
                  (P.startDate + ((0 : ℕ) : ℤ) + 1) wl - c)) + (cs : ℚ)
         else floorZero (P.lastRow.clockStops.map
                (fun c => applyResets P.reset1 P.reset2
                  (P.startDate + ((0 : ℕ) : ℤ) + 1) wl - c))))
    ∧ (∀ (P : SimParams) (w i : ℕ) (wl : ℚ) (cs cc : ℤ), i ≠ 0 →
      extrapolate65 P.df (P.startDate + (i : ℤ) + 1) (fun r => r.clockStarts) = some cs →
      extrapolate65 P.df (P.startDate + (i : ℤ) + 1) (fun r => r.clockStops) = some cc →
      simStep P w i wl = Except.ok
        (if i < w - 1
         then max 0 (applyResets P.reset1 P.reset2 (P.startDate + (i : ℤ) + 1) wl
                - adjustedClockStop (P.startDate + (i : ℤ) + 1) ((cc : ℚ)) P.initiatives)
              + (cs : ℚ)
         else max 0 (applyResets P.reset1 P.reset2 (P.startDate + (i : ℤ) + 1) wl
                - adjustedClockStop (P.startDate + (i : ℤ) + 1) ((cc : ℚ)) P.initiatives))) := by
  constructor
  · intro P w wl cs cc hs hc
    rw [simStep_eq P w 0 wl cs cc hs hc]
    simp
  · intro P w i wl cs cc hi hs hc
    rw [simStep_eq P w i wl cs cc hs hc]
    simp [hi, floorZero]

/-- Witness for C6 at the flat run: the first forecast step subtracts
the last actual capacity cell. -/
theorem claim_C6_witness :
    simStep Pflat 3 0 100 = Except.ok
      (if 0 < 3 - 1
       then floorZero (Pflat.lastRow.clockStops.map
              (fun c => applyResets Pflat.reset1 Pflat.reset2
                (Pflat.startDate + ((0 : ℕ) : ℤ) + 1) 100 - c)) + ((10 : ℤ) : ℚ)
       else floorZero (Pflat.lastRow.clockStops.map
              (fun c => applyResets Pflat.reset1 Pflat.reset2
                (Pflat.startDate + ((0 : ℕ) : ℤ) + 1) 100 - c))) :=
  claim_C6_seam_smoothing.1 Pflat 3 100 10 15
    (by norm_num [Pflat, flatRows, extrapolate65, quantileLinear, List.insertionSort,
      List.orderedInsert, pyInt, List.filterMap_cons, List.getElem_cons_succ])
    (by norm_num [Pflat, flatRows, extrapolate65, quantileLinear, List.insertionSort,
      List.orderedInsert, pyInt, List.filterMap_cons, List.getElem_cons_succ])

/-- C3 (amended): when a reset's date equals a simulated week, the
running value is replaced by the reset's value before the week's
demand/capacity update and the update is still applied.  At a week that
is neither the first forecast step (whose capacity is overridden by the
last actual) nor the final week (which skips the demand term), with
extrapolated demand 10 and effective capacity 5, the emitted value is
55 = max(0, 50 - 5) + 10 for any prior running value.  A one-period run
puts the reset on the final week, so it emits max(0, 50 - 5) = 45, not
55 — see the counterexample. -/
theorem claim_C3_reset_semantics (P : SimParams) (w i : ℕ) (wl : ℚ) (cc : ℤ)
    (hi0 : i ≠ 0) (himid : i < w - 1)
    (hs : extrapolate65 P.df (P.startDate + (i : ℤ) + 1) (fun r => r.clockStarts) = some 10)
    (hc : extrapolate65 P.df (P.startDate + (i : ℤ) + 1) (fun r => r.clockStops) = some cc)
    (hadj : adjustedClockStop (P.startDate + (i : ℤ) + 1) ((cc : ℚ)) P.initiatives = 5)
    (hr1 : P.reset1 = some (P.startDate + (i : ℤ) + 1, 50))
    (hr2 : P.reset2 = none) :
    simStep P w i wl = Except.ok 55 := by
  rw [simStep_eq P w i wl 10 cc hs hc, if_pos himid, if_neg hi0, hadj, hr1, hr2]
  norm_num [applyResets, applyReset, floorZero]

/-- Witness for C3: step 1 of a three-week run over `resetRows` with a
reset of 50 at week 4 emits 55 whatever the incoming running value
(here 77). -/
theorem claim_C3_witness : simStep Preset 3 1 77 = Except.ok 55 :=
  claim_C3_reset_semantics Preset 3 1 77 5 (by norm_num) (by norm_num)
    (by norm_num [Preset, resetRows, extrapolate65, quantileLinear, List.insertionSort,
      List.orderedInsert, pyInt, List.filterMap_cons, List.getElem_cons_succ])
    (by norm_num [Preset, resetRows, extrapolate65, quantileLinear, List.insertionSort,
      List.orderedInsert, pyInt, List.filterMap_cons, List.getElem_cons_succ])
    (by norm_num [Preset, adjustedClockStop])
    (by norm_num [Preset])
    (by norm_num [Preset])

/-- C3 counterexample: the claim's literal one-period scenario.  With
demand 10 and capacity 5 throughout the history (so the last actual
capacity is also 5) and a reset of 50 at the single simulated week, the
run emits 45 = max(0, 50 - 5): the week is the run's final week, so no
demand is added and the emitted value is not 55. -/
theorem claim_C3_counterexample :
    simulate_future resetRows 3 1 [] (some (3, 50)) none = Except.ok [(3, 45)]
    ∧ ((45 : ℚ) = 55 → False) := by
  constructor
  · norm_num [simulate_future, simLoop, simStep, extrapolate65, quantileLinear,
      List.insertionSort, List.orderedInsert, applyResets, applyReset, floorZero,
      adjustedClockStop, pyInt, resetRows, max_def, List.filterMap_cons,
      List.getElem_cons_succ]
  · norm_num

/-- C9: in `simulate_future`, for every run with at least one week, the
value emitted for the final simulated week is max(0, previous value -
adjusted capacity) with no demand term added — its formula mentions no
extrapolated demand — while every earlier week adds the extrapolated
demand after the capacity subtraction. -/
theorem claim_C9_last_week_skips_demand :
    (∀ (df : List Row) (today : ℤ) (w : ℕ) (inits : List Initiative)
       (r1 r2 : Option (ℤ × ℚ)) (traj : List (ℤ × ℚ)), 1 ≤ w →
      simulate_future df today w inits r1 r2 = Except.ok traj →
      ∃ lastRow prev cc,
        (df.filter (fun r => decide (r.week < today))).getLast? = some lastRow ∧
        extrapolate65 df (lastRow.week + ((w - 1 : ℕ) : ℤ) + 1) (fun r => r.clockStops)
          = some cc ∧
        traj.getLast? = some (lastRow.week + ((w - 1 : ℕ) : ℤ) + 1,
          floorZero ((if w - 1 = 0 then lastRow.clockStops
              else some (adjustedClockStop (lastRow.week + ((w - 1 : ℕ) : ℤ) + 1)
                ((cc : ℚ)) inits)).map
            (fun c => applyResets r1 r2 (lastRow.week + ((w - 1 : ℕ) : ℤ) + 1) prev - c))))
    ∧ (∀ (P : SimParams) (w i : ℕ) (wl : ℚ) (cs cc : ℤ), i < w - 1 →
      extrapolate65 P.df (P.startDate + (i : ℤ) + 1) (fun r => r.clockStarts) = some cs →
      extrapolate65 P.df (P.startDate + (i : ℤ) + 1) (fun r => r.clockStops) = some cc →
      simStep P w i wl = Except.ok
        (floorZero ((if i = 0 then P.lastRow.clockStops
            else some (adjustedClockStop (P.startDate + (i : ℤ) + 1) ((cc : ℚ)) P.initiatives)).map
          (fun c => applyResets P.reset1 P.reset2 (P.startDate + (i : ℤ) + 1) wl - c))
          + (cs : ℚ))) := by
  constructor
  · intro df today w inits r1 r2 traj hw hok
    rw [simulate_future] at hok
    cases hlast : (df.filter (fun r => decide (r.week < today))).getLast? with
    | none => rw [hlast] at hok; cases hok
    | some lastRow =>
      rw [hlast] at hok
      obtain ⟨k, rfl⟩ : ∃ k, w = k + 1 := ⟨w - 1, by omega⟩
      simp only [Nat.add_sub_cancel]
      obtain ⟨prev, v, hsv, hgl⟩ :=
        simLoop_ok_getLast ⟨df, lastRow, lastRow.week, inits, r1, r2⟩ (k + 1) k 0
          lastRow.over52 traj hok
      rw [Nat.zero_add] at hsv
      obtain ⟨cs, cc, hs, hc⟩ := simStep_ok_inv _ _ _ _ _ hsv
      rw [simStep_eq _ _ _ _ _ _ hs hc] at hsv
      have hnl : ¬ (k < (k + 1) - 1) := by omega
      rw [if_neg hnl] at hsv
      have hvv := Except.ok.inj hsv
      refine ⟨lastRow, prev, cc, rfl, hc, ?_⟩
      rw [hgl, ← hvv]
      simp only [Option.some.injEq, Prod.mk.injEq]
      constructor
      · push_cast
        ring
      · trivial
  · intro P w i wl cs cc hmid hs hc
    rw [simStep_eq P w i wl cs cc hs hc, if_pos hmid]

/-- Witness for C9 at the flat run: step 1 of 3 (not the final week)
adds the extrapolated demand after the capacity subtraction. -/
theorem claim_C9_witness :
    simStep Pflat 3 1 95 = Except.ok
      (floorZero ((if (1 : ℕ) = 0 then Pflat.lastRow.clockStops
          else some (adjustedClockStop (Pflat.startDate + ((1 : ℕ) : ℤ) + 1)
            (((15 : ℤ) : ℚ)) Pflat.initiatives)).map
        (fun c => applyResets Pflat.reset1 Pflat.reset2
          (Pflat.startDate + ((1 : ℕ) : ℤ) + 1) 95 - c)) + ((10 : ℤ) : ℚ)) :=
  claim_C9_last_week_skips_demand.2 Pflat 3 1 95 10 15 (by norm_num)
    (by norm_num [Pflat, flatRows, extrapolate65, quantileLinear, List.insertionSort,
      List.orderedInsert, pyInt, List.filterMap_cons, List.getElem_cons_succ])
    (by norm_num [Pflat, flatRows, extrapolate65, quantileLinear, List.insertionSort,
      List.orderedInsert, pyInt, List.filterMap_cons, List.getElem_cons_succ])
